import Mathlib

/-!
Verification of the tablet health-check subsystem
(`go/vt/discovery/healthcheck.go`).

The Go code is shallowly embedded: maps become association lists in
insertion order, goroutine spawns become explicit booleans in the result,
`context` cancellation becomes a `canceled` flag, durations become `Nat`,
and the `math/rand` source becomes an explicit stream of naturals.
External collaborators that are part of the repository but not in scope
(`topoproto`, the `tabletHealth` helper methods) are modelled from the
specification, each marked `Modelled from the spec:` in its doc comment.
-/

namespace Discovery

/-- Tablet types, mirroring the `topodatapb.TabletType` enum values used
by the code (`MASTER = 1`, `REPLICA = 2`, `RDONLY = 3`). -/
inductive TabletType where
  | unknown
  | master
  | replica
  | rdonly
deriving DecidableEq, Repr

/-- The numeric value of the protobuf enum, used by the `%d` format verb
in `keyFromTarget` / `keyFromTablet`. -/
def TabletType.toNat : TabletType → Nat
  | .unknown => 0
  | .master => 1
  | .replica => 2
  | .rdonly => 3

/-- `topodatapb.TabletAlias`: opaque identity `(cell, uid)`. -/
structure TabletAlias where
  cell : String
  uid : Nat
deriving DecidableEq, Repr

/-- The fields of `topodatapb.Tablet` read by the health check. -/
structure Tablet where
  Alias : TabletAlias
  keyspace : String
  shard : String
  type : TabletType
deriving DecidableEq, Repr

/-- `querypb.Target`: `(keyspace, shard, tabletType)`. -/
structure Target where
  keyspace : String
  shard : String
  tabletType : TabletType
deriving DecidableEq, Repr

/-- The fields of `querypb.RealtimeStats` interpreted by the health check
(the rest of the stats blob is opaque to this module). -/
structure RealtimeStats where
  healthError : String
deriving DecidableEq, Repr

/-- The fields of `querypb.StreamHealthResponse` read by `processResponse`.
`target` and `realtimeStats` are `Option` because the protobuf message
fields are nilable pointers. -/
structure StreamHealthResponse where
  target : Option Target
  serving : Bool
  tabletExternallyReparentedTimestamp : Int
  realtimeStats : Option RealtimeStats
  tabletAlias : Option TabletAlias
deriving DecidableEq, Repr

/-- Modelled from the spec: `topoproto.TabletAliasString` (outside the
provided source) renders a `(cell, uid)` pair as the stable string alias.
The exact rendering is immaterial to the claims; what matters is that it
is built from the cell and uid, not from keyspace/shard/type. -/
def TabletAliasString (a : TabletAlias) : String :=
  a.cell ++ "-" ++ toString a.uid

/-- `healthcheck.go keyFromTarget`: `fmt.Sprintf("%s.%s.%d", ...)` over the
target's keyspace, shard and tablet type. -/
def keyFromTarget (t : Target) : String :=
  t.keyspace ++ "." ++ t.shard ++ "." ++ toString t.tabletType.toNat

/-- `healthcheck.go keyFromTablet`: same format, over the tablet's declared
keyspace, shard and type. -/
def keyFromTablet (t : Tablet) : String :=
  t.keyspace ++ "." ++ t.shard ++ "." ++ toString t.type.toNat

/-- The mutable per-tablet record (`tabletHealth` in the source, declared in
a sibling file of the package; its fields are exactly the ones the provided
source reads and writes).  `canceled` embeds the state of the record's
cancellable context: `cancelFunc` sets it, `hcc.ctx.Done()` reads it. -/
structure TabletHealth where
  tablet : Tablet
  target : Target
  up : Bool
  serving : Bool
  lastError : Option String
  masterTermStartTime : Int
  stats : Option RealtimeStats
  conn : Option Nat
  canceled : Bool
deriving DecidableEq, Repr

/-- Modelled from the spec: `tabletHealth.isHealthy()` (declared outside the
provided source) returns true iff `serving ∧ lastError = none ∧ type ≠ PRIMARY`. -/
def TabletHealth.isHealthy (th : TabletHealth) : Bool :=
  th.serving && th.lastError == none && !(th.target.tabletType == .master)

/-- One bucket of the index: Go `map[string]*tabletHealth` keyed by tablet
alias, as an association list in insertion order. -/
abbrev Bucket := List (String × TabletHealth)

/-- The outer index: Go `map[string]map[string]*tabletHealth` keyed by
`keyspace.shard.tabletType`, as an association list in insertion order. -/
abbrev Entries := List (String × List (String × TabletHealth))

/-- Go map update `m[k] = v` on an association list: overwrite in place if
the key is present, append otherwise. -/
def updateA {β : Type} (m : List (String × β)) (k : String) (v : β) : List (String × β) :=
  match m with
  | [] => [(k, v)]
  | (k', v') :: rest => if k' = k then (k, v) :: rest else (k', v') :: updateA rest k v

/-- Go map lookup `m[k]` on an association list. -/
def lookupA {β : Type} (m : List (String × β)) (k : String) : Option β :=
  match m with
  | [] => none
  | (k', v') :: rest => if k' = k then some v' else lookupA rest k

/-- The state of `HealthCheckImpl` relevant to the claims.  `entries` is
`none` once `Close` has set the Go map to nil. -/
structure HealthCheckImpl where
  retryDelay : Nat
  healthCheckTimeout : Nat
  cell : String
  entries : Option Entries
deriving DecidableEq

/-- Bucket lookup `hc.entries[key]`; reading a nil Go map yields no entry. -/
def HealthCheckImpl.bucket (hc : HealthCheckImpl) (key : String) : Option (List (String × TabletHealth)) :=
  match hc.entries with
  | none => none
  | some m => lookupA m key

/-- The fresh record built by `AddTablet`: `Up: true`, everything else at
its zero value, with a freshly derived target. -/
def newTabletHealth (tablet : Tablet) : TabletHealth :=
  { tablet := tablet
    target := { keyspace := tablet.keyspace, shard := tablet.shard, tabletType := tablet.type }
    up := true
    serving := false
    lastError := none
    masterTermStartTime := 0
    stats := none
    conn := none
    canceled := false }

/-- `HealthCheckImpl.AddTablet`.  Returns the new state together with a
flag recording whether a `checkConn` monitor goroutine was spawned
(`go hc.checkConn(hcc)` runs whenever the early nil-map return is not
taken). -/
def AddTablet (hc : HealthCheckImpl) (tablet : Tablet) : HealthCheckImpl × Bool :=
  match hc.entries with
  | none => (hc, false)
  | some m =>
    let th := newTabletHealth tablet
    let key := keyFromTarget th.target
    let tabletAlias := TabletAliasString tablet.Alias
    let m' :=
      match lookupA m key with
      | none => updateA m key [(tabletAlias, th)]
      | some ths =>
        match lookupA ths tabletAlias with
        | none => updateA m key (updateA ths tabletAlias th)
        | some _ => m
    ({ hc with entries := some m' }, true)

/-- `HealthCheckImpl.Close`: fires every record's `cancelFunc` and sets the
index map to nil.  The watcher shutdown and goroutine join do not touch the
index further. -/
def Close (hc : HealthCheckImpl) : HealthCheckImpl :=
  { hc with entries := none }

/-- The `for _, th := range ths` loop body of `getHealthyTabletStats`: a
MASTER-typed record is appended to the accumulated result and returned
immediately; otherwise records passing `isHealthy()` are accumulated. -/
def healthyLoop (acc : List TabletHealth) : List (String × TabletHealth) → List TabletHealth
  | [] => acc
  | (_, th) :: rest =>
    if th.tablet.type == .master then acc ++ [th]
    else if th.isHealthy then healthyLoop (acc ++ [th]) rest
    else healthyLoop acc rest

/-- `HealthCheckImpl.getHealthyTabletStats`: looks up the target bucket,
returns nothing for a missing bucket or for a MASTER target whose bucket
holds more than one record, and otherwise runs the accumulation loop. -/
def getHealthyTabletStats (hc : HealthCheckImpl) (target : Target) : List TabletHealth :=
  let key := keyFromTarget target
  match hc.bucket key with
  | none => []
  | some ths =>
    if target.tabletType == .master && ths.length > 1 then []
    else healthyLoop [] ths

/-- `HealthCheckImpl.getTabletStats`: despite taking a target, it collects
every record of every bucket of the whole index (the `target` parameter is
never read in the body). -/
def getTabletStats (hc : HealthCheckImpl) (target : Target) : List TabletHealth :=
  match hc.entries with
  | none => []
  | some m => m.foldl (fun acc kv => acc ++ kv.2.map Prod.snd) []

/-- The inner-bucket scan of `findTabletHealthByAlias`: first record whose
`TabletAliasString` rendering equals the given key. -/
def findInBucket : List (String × TabletHealth) → String → Option TabletHealth
  | [], _ => none
  | (_, th) :: rest, key =>
    if TabletAliasString th.tablet.Alias == key then some th else findInBucket rest key

/-- The outer scan of `findTabletHealthByAlias` over every bucket. -/
def findInEntries : Entries → String → Option TabletHealth
  | [], _ => none
  | (_, ths) :: rest, key =>
    match findInBucket ths key with
    | some th => some th
    | none => findInEntries rest key

/-- `HealthCheckImpl.findTabletHealthByAlias`: scans every bucket for a
record whose `TabletAliasString` rendering equals the given key. -/
def findTabletHealthByAlias (hc : HealthCheckImpl) (key : String) : Option TabletHealth :=
  match hc.entries with
  | none => none
  | some m => findInEntries m key

/-- `HealthCheckImpl.getConnection`: the connection of the record located
by `findTabletHealthByAlias`, or nil. -/
def getConnection (hc : HealthCheckImpl) (key : String) : Option Nat :=
  match findTabletHealthByAlias hc key with
  | none => none
  | some th => th.conn

/-! ## Locality shuffle (`shuffleTablets` / `nextTablet`)

`math/rand` is modelled by an explicit stream of naturals: each call
`rand.Intn(n)` consumes the head `v` of the stream and yields `v % n`,
which like the original lies in `[0, n)`. -/

/-- Swap of two positions of a list; out-of-range indices leave the list
unchanged (the Go code only ever swaps in-range indices). -/
def swapL {α : Type} (l : List α) (i j : Nat) : List α :=
  match l[i]?, l[j]? with
  | some a, some b => (l.set i b).set j a
  | _, _ => l

/-- The scan of `nextTablet`, recursing on the number of remaining
positions so that the definition is structural (and thus evaluates inside
the kernel). -/
def nextTabletGo (cell : String) (tablets : List TabletHealth) (sameCell : Bool) : Nat → Nat → Option Nat
  | 0, _ => none
  | fuel + 1, offset =>
    if h : offset < tablets.length then
      if ((tablets.get ⟨offset, h⟩).tablet.Alias.cell == cell) == sameCell then some offset
      else nextTabletGo cell tablets sameCell fuel (offset + 1)
    else none

/-- `HealthCheckImpl.nextTablet`: first index at or after `offset` whose
cell-equality with `cell` matches `sameCell`; Go returns `-1` (here `none`)
when none remains.  The scan budget `tablets.length - offset` covers every
position the Go `for ; offset < length; offset++` loop visits. -/
def nextTablet (cell : String) (tablets : List TabletHealth) (offset : Nat) (sameCell : Bool) : Option Nat :=
  nextTabletGo cell tablets sameCell (tablets.length - offset) offset

/-- The loop-step unfolding of `nextTablet`, mirroring the Go loop body. -/
theorem nextTablet_eq (cell : String) (tablets : List TabletHealth) (offset : Nat) (sameCell : Bool) :
    nextTablet cell tablets offset sameCell =
      if h : offset < tablets.length then
        if ((tablets.get ⟨offset, h⟩).tablet.Alias.cell == cell) == sameCell then some offset
        else nextTablet cell tablets (offset + 1) sameCell
      else none := by
  by_cases h : offset < tablets.length
  · rw [dif_pos h]
    have hn : tablets.length - offset = (tablets.length - (offset + 1)) + 1 := by omega
    calc nextTablet cell tablets offset sameCell
        = nextTabletGo cell tablets sameCell (tablets.length - offset) offset := rfl
      _ = nextTabletGo cell tablets sameCell ((tablets.length - (offset + 1)) + 1) offset := by
          rw [hn]
      _ = if h : offset < tablets.length then
            (if ((tablets.get ⟨offset, h⟩).tablet.Alias.cell == cell) == sameCell then some offset
             else nextTabletGo cell tablets sameCell (tablets.length - (offset + 1)) (offset + 1))
          else none := rfl
      _ = (if ((tablets.get ⟨offset, h⟩).tablet.Alias.cell == cell) == sameCell then some offset
           else nextTablet cell tablets (offset + 1) sameCell) := by
          rw [dif_pos h]
          rfl
  · rw [dif_neg h]
    calc nextTablet cell tablets offset sameCell
        = nextTabletGo cell tablets sameCell (tablets.length - offset) offset := rfl
      _ = nextTabletGo cell tablets sameCell 0 offset := by
          rw [show tablets.length - offset = 0 from by omega]
      _ = none := rfl

/-- The `for {}` partition loop of `shuffleTablets`, moving same-cell
tablets to the front with the two cursors `sameCell` and `diffCell`.
Returns the permuted list together with `sameCellMax + 1` (the value
`diffCell` holds when the breaking iteration starts; using the successor
keeps the value a `Nat`).  `fuel` bounds the iteration count; the loop
variant `sameCell` strictly increases and stays at most `length`, so
`length + 1` fuel is always enough. -/
def shufflePartition (cell : String) (tablets : List TabletHealth) (sameCell diffCell : Nat) (fuel : Nat) : List TabletHealth × Nat :=
  match fuel with
  | 0 => (tablets, diffCell)
  | fuel + 1 =>
    match nextTablet cell tablets sameCell true, nextTablet cell tablets diffCell false with
    | some s, some d =>
      if s < d then
        shufflePartition cell tablets (d + 1) d fuel
      else
        shufflePartition cell (swapL tablets s d) (s + 1) (d + 1) fuel
    | _, _ => (tablets, diffCell)

/-- The body of a Fisher-Yates pass, recursing on the number of remaining
iterations so that the definition is structural. -/
def fyGo (lo : Nat) : Nat → Nat → List TabletHealth → List Nat → List TabletHealth × List Nat
  | 0, _, tablets, rands => (tablets, rands)
  | fuel + 1, i, tablets, rands =>
    if lo < i then
      let v := rands.headD 0
      fyGo lo fuel (i - 1) (swapL tablets i (v % (i - lo + 1) + lo)) rands.tail
    else (tablets, rands)

/-- One of the two Fisher-Yates passes of `shuffleTablets`: for `i` down to
`lo + 1`, swap position `i` with position `rand.Intn(i - lo + 1) + lo`.
With `lo = 0` this is the same-cell pass, with `lo = sameCellMax + 1` the
diff-cell pass (in both passes Go's bound `i - sameCellMax` equals
`i - lo + 1`).  The budget `i - lo` is the exact iteration count of the Go
`for` loop. -/
def fyLoop (lo : Nat) (i : Nat) (tablets : List TabletHealth) (rands : List Nat) : List TabletHealth × List Nat :=
  fyGo lo (i - lo) i tablets rands

/-- The loop-step unfolding of `fyLoop`, mirroring the Go loop body. -/
theorem fyLoop_eq (lo i : Nat) (tablets : List TabletHealth) (rands : List Nat) :
    fyLoop lo i tablets rands =
      if lo < i then
        fyLoop lo (i - 1) (swapL tablets i (rands.headD 0 % (i - lo + 1) + lo)) rands.tail
      else (tablets, rands) := by
  by_cases h : lo < i
  · rw [if_pos h]
    have hn : i - lo = ((i - 1) - lo) + 1 := by omega
    calc fyLoop lo i tablets rands
        = fyGo lo (i - lo) i tablets rands := rfl
      _ = fyGo lo (((i - 1) - lo) + 1) i tablets rands := by rw [hn]
      _ = if lo < i then
            fyGo lo ((i - 1) - lo) (i - 1) (swapL tablets i (rands.headD 0 % (i - lo + 1) + lo)) rands.tail
          else (tablets, rands) := rfl
      _ = fyLoop lo (i - 1) (swapL tablets i (rands.headD 0 % (i - lo + 1) + lo)) rands.tail := by
          rw [if_pos h]
          rfl
  · rw [if_neg h]
    calc fyLoop lo i tablets rands
        = fyGo lo (i - lo) i tablets rands := rfl
      _ = fyGo lo 0 i tablets rands := by rw [show i - lo = 0 from by omega]
      _ = (tablets, rands) := rfl

/-- `HealthCheckImpl.shuffleTablets`: partition by cell, then one
Fisher-Yates pass over the same-cell zone and one over the diff-cell zone.
(The method reads no `HealthCheckImpl` state.) -/
def shuffleTablets (cell : String) (tablets : List TabletHealth) (rands : List Nat) : List TabletHealth :=
  let length := tablets.length
  let pr := shufflePartition cell tablets 0 0 (length + 1)
  let fy1 := fyLoop 0 (pr.2 - 1) pr.1 rands
  (fyLoop pr.2 (length - 1) fy1.1 fy1.2).1

/-- The error value `vterrors.New(vtrpcpb.Code_UNAVAILABLE, msg)`. -/
structure VtError where
  code : String
  msg : String
deriving DecidableEq, Repr

/-- `vtrpcpb.Code_UNAVAILABLE` rendered as its name. -/
def unavailable (msg : String) : VtError :=
  { code := "UNAVAILABLE", msg := msg }

/-- The `for _, t := range tablets` loop of `GetTabletAndConnection`: skip
keys already in `invalidTablets`, record keys whose connection lookup
fails, hand out the first live connection.  Returns the result together
with the final `invalidTablets` set (the Go code mutates the caller's
map). -/
def selectLoop (hc : HealthCheckImpl) : List TabletHealth → List String → Except VtError (String × Nat) × List String
  | [], invalidTablets => (.error (unavailable "no available connection"), invalidTablets)
  | t :: rest, invalidTablets =>
    let tabletAlias := keyFromTablet t.tablet
    if tabletAlias ∈ invalidTablets then selectLoop hc rest invalidTablets
    else
      match getConnection hc tabletAlias with
      | none => selectLoop hc rest (tabletAlias :: invalidTablets)
      | some conn => (.ok (tabletAlias, conn), invalidTablets)

/-- `HealthCheckImpl.GetTabletAndConnection`. -/
def GetTabletAndConnection (hc : HealthCheckImpl) (target : Target) (localCell : String)
    (invalidTablets : List String) (rands : List Nat) : Except VtError (String × Nat) × List String :=
  let tablets := getHealthyTabletStats hc target
  if tablets.length = 0 then (.error (unavailable "no valid tablet"), invalidTablets)
  else selectLoop hc (shuffleTablets localCell tablets rands) invalidTablets

/-! ## Waiter (`waitForTablets`) -/

/-- One pass of the `for i, target := range targets` loop of
`waitForTablets`: returns whether every (remaining) target was found, and
the targets list with the satisfied entries nilled out. -/
def waitPass (hc : HealthCheckImpl) (requireServing : Bool) : List (Option Target) → Bool × List (Option Target)
  | [] => (true, [])
  | none :: rest =>
    let pr := waitPass hc requireServing rest
    (pr.1, none :: pr.2)
  | some target :: rest =>
    let stats := if requireServing then getHealthyTabletStats hc target else getTabletStats hc target
    let pr := waitPass hc requireServing rest
    if stats.length = 0 then (false, some target :: pr.2)
    else (pr.1, none :: pr.2)

/-- `HealthCheckImpl.waitForTablets`: poll until every target is satisfied
or the context expires.  The context is modelled by the number of
remaining sleep intervals before `ctx.Done()` fires; the index itself is
unchanged between polls (the claims are about a fixed index state). -/
def waitForTablets (hc : HealthCheckImpl) (targets : List (Option Target)) (requireServing : Bool) (ctxRounds : Nat) : Except String Unit :=
  let pr := waitPass hc requireServing targets
  if pr.1 then .ok ()
  else
    match ctxRounds with
    | 0 => .error "context canceled"
    | rounds + 1 => waitForTablets hc pr.2 requireServing rounds

/-! ## Per-tablet monitor (`checkConn` and its helpers)

The monitor mutates only its own record; the record-level operations are
embedded as functions from `TabletHealth` to `TabletHealth`. -/

/-- `healthCheckConn.processResponse`: returns the updated record and the
error returned to `StreamHealth` (`none` on success).  The `hcc.ctx.Done()`
check is the `canceled` flag; the bucket move for a changed tablet type
does not touch any of the record's health fields and the target-key map is
not needed by the record-level claims, so it is not repeated here. -/
def processResponse (s : TabletHealth) (shr : StreamHealthResponse) : TabletHealth × Option String :=
  if s.canceled then (s, some "context canceled")
  else
    match shr.target, shr.realtimeStats with
    | none, _ => (s, some "health stats is not valid")
    | _, none => (s, some "health stats is not valid")
    | some target, some realtimeStats =>
      let healthErr : Option String :=
        if realtimeStats.healthError != "" then some ("vttablet error: " ++ realtimeStats.healthError) else none
      let serving := if realtimeStats.healthError != "" then false else shr.serving
      match shr.tabletAlias with
      | some a =>
        if a ≠ s.tablet.Alias then (s, some "health stats mismatch") else
        ({ s with target := target
                  masterTermStartTime := shr.tabletExternallyReparentedTimestamp
                  stats := some realtimeStats
                  lastError := healthErr
                  serving := serving }, none)
      | none =>
        ({ s with target := target
                  masterTermStartTime := shr.tabletExternallyReparentedTimestamp
                  stats := some realtimeStats
                  lastError := healthErr
                  serving := serving }, none)

/-- The `if timedout.Get()` branch of `checkConn`: freshness timeout sets
`LastError` and forces non-serving. -/
def timeoutUpdate (s : TabletHealth) (latest : String) : TabletHealth :=
  { s with lastError := some ("healthcheck timed out (latest " ++ latest ++ ")")
           serving := false }

/-- The error branch of `healthCheckConn.stream` after `StreamHealth`
returns: non-serving, record the error, close and nil the connection. -/
def streamErrorUpdate (s : TabletHealth) (err : String) : TabletHealth :=
  { s with serving := false, lastError := some err, conn := none }

/-- The dial branch of `healthCheckConn.stream` when `conn == nil`:
a failed dial records the error, a successful dial installs the
connection and clears `LastError`. -/
def dialFailUpdate (s : TabletHealth) (err : String) : TabletHealth :=
  { s with lastError := some err }

/-- See `dialFailUpdate`. -/
def dialOkUpdate (s : TabletHealth) (conn : Nat) : TabletHealth :=
  { s with conn := some conn, lastError := none }

/-- `HealthCheckImpl.finalizeConn`: on monitor exit, `Up := false`,
non-serving, `LastError := hcc.ctx.Err()` (the cancellation reason; the
monitor exits only once its context is done), close and nil the
connection. -/
def finalizeConn (s : TabletHealth) : TabletHealth :=
  { s with up := false
           serving := false
           lastError := some "context canceled"
           conn := none }

/-- Firing the record's `cancelFunc` (from `RemoveTablet` or `Close`). -/
def cancelRecord (s : TabletHealth) : TabletHealth :=
  { s with canceled := true }

/-- The record-level mutations a `tabletHealth` undergoes after
`AddTablet`, as a step relation.  `response` carries the fact that the
`StreamHealth` callback only runs on an established connection, and
`finalize` the fact that `checkConn` exits only when its context is done
(both are how the monitor loop in `checkConn` invokes these operations). -/
inductive MonitorStep : TabletHealth → TabletHealth → Prop
  | response (s : TabletHealth) (shr : StreamHealthResponse) (hconn : s.conn ≠ none) :
      MonitorStep s (processResponse s shr).1
  | timeout (s : TabletHealth) (latest : String) : MonitorStep s (timeoutUpdate s latest)
  | streamError (s : TabletHealth) (err : String) : MonitorStep s (streamErrorUpdate s err)
  | dialFail (s : TabletHealth) (err : String) (hconn : s.conn = none) :
      MonitorStep s (dialFailUpdate s err)
  | dialOk (s : TabletHealth) (conn : Nat) (hconn : s.conn = none) :
      MonitorStep s (dialOkUpdate s conn)
  | cancel (s : TabletHealth) : MonitorStep s (cancelRecord s)
  | finalize (s : TabletHealth) (hcanceled : s.canceled = true) : MonitorStep s (finalizeConn s)

/-- States a record can reach from its creation by `AddTablet`. -/
def ReachableRecord (tablet : Tablet) (s : TabletHealth) : Prop :=
  Relation.ReflTransGen MonitorStep (newTabletHealth tablet) s

/-! ## Monitor retry backoff (`checkConn`) -/

/-- The events the `checkConn` loop reacts to: a received health sample
(the `StreamHealth` callback) or a stream termination followed by the
backoff sleep. -/
inductive HcEvent where
  | sample
  | termination
deriving DecidableEq, Repr

/-- The backoff sleeps `checkConn` performs, threading the `retryDelay`
local through the event sequence: a sample resets it to the base
`hc.retryDelay`; a termination sleeps the current value, doubles it and
caps the result at `hc.healthCheckTimeout`. -/
def retrySleeps (base timeout : Nat) : List HcEvent → Nat → List Nat
  | [], _ => []
  | .sample :: rest, _ => retrySleeps base timeout rest base
  | .termination :: rest, d =>
    d :: retrySleeps base timeout rest (if d * 2 > timeout then timeout else d * 2)

/-! ## Topology-watcher checksum (`loadTablets`) -/

/-- The byte buffer hashed at the end of a `loadTablets` tick: the listed
alias strings are sorted, and for each one present in the committed
snapshot the alias followed by its address key is appended.
`sort.Strings` is a comparison sort; `mergeSort` with `≤` computes the
same (unique) sorted permutation. -/
def topoChecksumInput (tabletAliasStrs : List String) (tablets : List (String × String)) : String :=
  tabletAliasStrs.mergeSort.foldl
    (fun buf a =>
      match lookupA tablets a with
      | some key => buf ++ a ++ key
      | none => buf)
    ""

/-! ## Helper lemmas -/

theorem healthyLoop_length (l : List (String × TabletHealth)) :
    ∀ acc : List TabletHealth, (healthyLoop acc l).length ≤ acc.length + l.length := by
  induction l with
  | nil => intro acc; simp [healthyLoop]
  | cons kv rest ih =>
    intro acc
    unfold healthyLoop
    split
    · simp
    · split
      · have h := ih (acc ++ [kv.2])
        simp at h ⊢
        omega
      · have h := ih acc
        simp only [List.length_cons]
        omega

/-! ## Concrete states used by witnesses and counterexamples -/

/-- An open health check with an empty index. -/
def hcOpen : HealthCheckImpl :=
  { retryDelay := 5, healthCheckTimeout := 60, cell := "cella", entries := some [] }

/-- A replica tablet in cell `cella`. -/
def tabletA : Tablet :=
  { Alias := { cell := "cella", uid := 1 }, keyspace := "ks", shard := "0", type := .replica }

/-- The PRIMARY target for keyspace `ks`, shard `0`. -/
def targetMaster : Target := { keyspace := "ks", shard := "0", tabletType := .master }

/-- A serving MASTER record with term start time 5. -/
def masterTh1 : TabletHealth :=
  { tablet := { Alias := { cell := "cella", uid := 1 }, keyspace := "ks", shard := "0", type := .master }
    target := targetMaster
    up := true, serving := true, lastError := none
    masterTermStartTime := 5, stats := none, conn := some 1, canceled := false }

/-- A serving MASTER record with term start time 7. -/
def masterTh2 : TabletHealth :=
  { tablet := { Alias := { cell := "cellb", uid := 2 }, keyspace := "ks", shard := "0", type := .master }
    target := targetMaster
    up := true, serving := true, lastError := none
    masterTermStartTime := 7, stats := none, conn := some 2, canceled := false }

/-- An index whose PRIMARY bucket holds two MASTER records. -/
def hcTwoMasters : HealthCheckImpl :=
  { retryDelay := 5, healthCheckTimeout := 60, cell := "cella"
    entries := some [(keyFromTarget targetMaster,
      [(TabletAliasString masterTh1.tablet.Alias, masterTh1),
       (TabletAliasString masterTh2.tablet.Alias, masterTh2)])] }

/-! ## C2 -/

/-- C2 counterexample: the claim says that with multiple PRIMARY records in
the bucket, the record with the greatest `primaryTermStartTime`
(`masterTh2`) is handed out.  The code returns no record at all whenever
the PRIMARY bucket holds more than one entry. -/
theorem getHealthyTabletStats_two_masters_empty :
    getHealthyTabletStats hcTwoMasters targetMaster = [] ∧
    hcTwoMasters.bucket (keyFromTarget targetMaster) =
      some [(TabletAliasString masterTh1.tablet.Alias, masterTh1),
            (TabletAliasString masterTh2.tablet.Alias, masterTh2)] ∧
    masterTh1.masterTermStartTime < masterTh2.masterTermStartTime := by
  refine ⟨by decide, by decide, by decide⟩

/-- C2 (amended): for a PRIMARY target, selection returns at most one
record; when the target bucket holds more than one record it returns none
at all, so no tie-break on `primaryTermStartTime` ever happens. -/
theorem getHealthyTabletStats_master_at_most_one (hc : HealthCheckImpl) (target : Target)
    (htype : target.tabletType = .master) :
    (getHealthyTabletStats hc target).length ≤ 1 := by
  unfold getHealthyTabletStats
  cases hb : hc.bucket (keyFromTarget target) with
  | none => simp [hb]
  | some ths =>
    simp only [hb]
    by_cases hlen : ths.length > 1
    · simp [htype, hlen]
    · have h2 := healthyLoop_length ths []
      simp only [List.length_nil, Nat.zero_add] at h2
      split
      · simp
      · omega

/-- C2 witness: a PRIMARY bucket holding a single MASTER record. -/
theorem getHealthyTabletStats_master_at_most_one_witness :
    targetMaster.tabletType = .master ∧
    (getHealthyTabletStats
      { retryDelay := 5, healthCheckTimeout := 60, cell := "cella"
        entries := some [(keyFromTarget targetMaster,
          [(TabletAliasString masterTh1.tablet.Alias, masterTh1)])] } targetMaster).length ≤ 1 :=
  ⟨rfl, getHealthyTabletStats_master_at_most_one _ targetMaster rfl⟩

/-! ## C3 -/

/-- The index state for the C3 failing input: one record, filed under
keyspace `ks1`, shard `0`, REPLICA. -/
def hcOtherKeyspace : HealthCheckImpl :=
  { retryDelay := 5, healthCheckTimeout := 60, cell := "cella"
    entries := some [("ks1.0.2", [("cella-1",
      newTabletHealth { Alias := { cell := "cella", uid := 1 }, keyspace := "ks1", shard := "0", type := .replica })])] }

/-- A target for a keyspace that has no records at all in the index. -/
def targetKs2 : Target := { keyspace := "ks2", shard := "0", tabletType := .replica }

/-- C3 failing input: `waitForTablets` with `requireServing = false`
returns nil on its very first pass for a target whose key has no record in
the index, because `getTabletStats` ignores its `target` argument and
returns every record of every bucket. -/
theorem waitForTablets_ignores_target_key :
    waitForTablets hcOtherKeyspace [some targetKs2] false 0 = .ok () ∧
    hcOtherKeyspace.bucket (keyFromTarget targetKs2) = none ∧
    getTabletStats hcOtherKeyspace targetKs2 ≠ [] := by
  refine ⟨rfl, by decide, by decide⟩

/-! ## C5 -/

/-- C5 counterexample: the claim says no new monitor task is spawned for a
duplicate `AddTablet`.  The spawn flag of the second call is `true`: the
`go hc.checkConn(hcc)` at the end of `AddTablet` runs unconditionally
whenever the health check is not closed, duplicate or not. -/
theorem addTablet_duplicate_spawns :
    (AddTablet (AddTablet hcOpen tabletA).1 tabletA).2 = true ∧
    (AddTablet (AddTablet hcOpen tabletA).1 tabletA).1 = (AddTablet hcOpen tabletA).1 := by
  refine ⟨by decide, by decide⟩

/-- C5 (amended): a duplicate `AddTablet` leaves the index unchanged — the
existing record is kept and the bucket still holds a single record for the
alias — but a monitor goroutine is spawned for the discarded duplicate
record anyway. -/
theorem addTablet_duplicate_noop_on_index (hc : HealthCheckImpl) (tablet : Tablet)
    (m : Entries) (ths : Bucket) (th : TabletHealth)
    (hm : hc.entries = some m)
    (hb : lookupA m (keyFromTarget (newTabletHealth tablet).target) = some ths)
    (ha : lookupA ths (TabletAliasString tablet.Alias) = some th) :
    AddTablet hc tablet = (hc, true) := by
  obtain ⟨rd, ht, c, e⟩ := hc
  simp only at hm
  subst hm
  simp [AddTablet, hb, ha]

/-- C5 witness: adding `tabletA` twice to an open health check. -/
theorem addTablet_duplicate_noop_on_index_witness :
    AddTablet (AddTablet hcOpen tabletA).1 tabletA = ((AddTablet hcOpen tabletA).1, true) :=
  addTablet_duplicate_noop_on_index _ tabletA _ _ _ rfl rfl rfl

/-! ## C7 -/

theorem retrySleeps_le_timeout (base timeout : Nat) (hbase : base ≤ timeout) :
    ∀ (events : List HcEvent) (d : Nat), d ≤ timeout →
      ∀ sleep ∈ retrySleeps base timeout events d, sleep ≤ timeout := by
  intro events
  induction events with
  | nil => intro d _ sleep h; simp [retrySleeps] at h
  | cons e rest ih =>
    intro d hd sleep h
    cases e with
    | sample => exact ih base hbase sleep h
    | termination =>
      simp only [retrySleeps, List.mem_cons] at h
      rcases h with rfl | h
      · exact hd
      · refine ih _ ?_ sleep h
        split
        · exact Nat.le_refl timeout
        · omega

/-- C7 (amended): each sample resets the retry delay to the base
`retryDelay`; each termination sleeps the current delay and then doubles
it, capping the result at `healthCheckTimeout`; and provided the base
delay does not exceed `healthCheckTimeout` (true for the defaults 5 s and
1 min), no sleep ever exceeds `healthCheckTimeout`.  Without that proviso
the bound fails (see the counterexample). -/
theorem checkConn_backoff (base timeout : Nat) (events : List HcEvent)
    (hbase : base ≤ timeout) :
    (∀ (rest : List HcEvent) (d : Nat),
      retrySleeps base timeout (.sample :: rest) d = retrySleeps base timeout rest base) ∧
    (∀ (rest : List HcEvent) (d : Nat),
      retrySleeps base timeout (.termination :: rest) d =
        d :: retrySleeps base timeout rest (if d * 2 > timeout then timeout else d * 2)) ∧
    (∀ sleep ∈ retrySleeps base timeout events base, sleep ≤ timeout) := by
  refine ⟨fun _ _ => rfl, fun _ _ => rfl, ?_⟩
  exact retrySleeps_le_timeout base timeout hbase events base hbase

/-- C7 witness: the default configuration, one stream termination, a
sample, and another termination. -/
theorem checkConn_backoff_witness :
    5 ≤ 60 ∧
    ∀ sleep ∈ retrySleeps 5 60 [.termination, .sample, .termination] 5, sleep ≤ 60 :=
  ⟨by decide, (checkConn_backoff 5 60 [.termination, .sample, .termination] (by decide)).2.2⟩

/-- C7 counterexample: with a base retry delay of 2 and a health-check
timeout of 1, the very first backoff sleeps the base delay, which exceeds
the timeout — the claimed bound only holds once the delay has been through
the doubling-and-capping step. -/
theorem checkConn_backoff_counterexample :
    retrySleeps 2 1 [.termination] 2 = [2] ∧ ¬(2 ≤ 1) := by
  refine ⟨rfl, by decide⟩

/-! ## C10 -/

/-- C10: after `Close` (which nils the index map), `AddTablet` returns
immediately: the state is unchanged and no monitor goroutine is spawned. -/
theorem addTablet_after_close (hc : HealthCheckImpl) (tablet : Tablet) :
    AddTablet (Close hc) tablet = (Close hc, false) := rfl

/-! ## C4 -/

/-- The inductive invariant carried by every record: the claimed property
together with the two auxiliary facts that make it inductive (`Up` only
goes false under a fired cancellation, and a record with no connection is
never serving). -/
def RecordInv (s : TabletHealth) : Prop :=
  (s.serving = true → s.up = true ∧ s.lastError = none) ∧
  (s.up = false → s.canceled = true) ∧
  (s.conn = none → s.serving = false)

theorem processResponse_inv_facts (s : TabletHealth) (shr : StreamHealthResponse) :
    (processResponse s shr).1.up = s.up ∧
    (processResponse s shr).1.conn = s.conn ∧
    (processResponse s shr).1.canceled = s.canceled ∧
    ((processResponse s shr).1.serving = true →
      ((processResponse s shr).1 = s ∨
       (s.canceled = false ∧ (processResponse s shr).1.lastError = none))) := by
  unfold processResponse
  split
  · exact ⟨rfl, rfl, rfl, fun _ => Or.inl rfl⟩
  · rename_i hcanc
    have hcf : s.canceled = false := by
      cases hcv : s.canceled
      · rfl
      · exact absurd hcv hcanc
    split
    · exact ⟨rfl, rfl, rfl, fun _ => Or.inl rfl⟩
    · exact ⟨rfl, rfl, rfl, fun _ => Or.inl rfl⟩
    · rename_i target realtimeStats heq1 heq2
      cases hta : shr.tabletAlias with
      | some a =>
        simp only [hta]
        split
        · simp
        · refine ⟨by simp, by simp, by simp, fun hs => Or.inr ⟨hcf, ?_⟩⟩
          simp only at hs ⊢
          by_cases he : (realtimeStats.healthError != "") = true
          · rw [if_pos he] at hs; exact absurd hs (by simp)
          · rw [if_neg he]
      | none =>
        simp only [hta]
        refine ⟨by simp, by simp, by simp, fun hs => Or.inr ⟨hcf, ?_⟩⟩
        simp only at hs ⊢
        by_cases he : (realtimeStats.healthError != "") = true
        · rw [if_pos he] at hs; exact absurd hs (by simp)
        · rw [if_neg he]

theorem monitorStep_inv {s s' : TabletHealth} (h : MonitorStep s s') (hinv : RecordInv s) :
    RecordInv s' := by
  obtain ⟨h1, h2, h3⟩ := hinv
  cases h with
  | response shr hconn =>
    obtain ⟨hu, hc2, hca, hsv⟩ := processResponse_inv_facts s shr
    refine ⟨?_, ?_, ?_⟩
    · intro hs
      rcases hsv hs with heq | ⟨hnc, hle⟩
      · rw [heq] at hs ⊢
        exact h1 hs
      · refine ⟨?_, hle⟩
        rw [hu]
        cases hup : s.up
        · rw [h2 hup] at hnc; exact absurd hnc (by simp)
        · rfl
    · intro hup
      rw [hu] at hup
      rw [hca]
      exact h2 hup
    · intro hcn
      rw [hc2] at hcn
      exact absurd hcn hconn
  | timeout latest => exact ⟨by simp [timeoutUpdate], by simpa [timeoutUpdate] using h2, by simp [timeoutUpdate]⟩
  | streamError err => exact ⟨by simp [streamErrorUpdate], by simpa [streamErrorUpdate] using h2, by simp [streamErrorUpdate]⟩
  | dialFail err hconn =>
    have hs : s.serving = false := h3 hconn
    exact ⟨by simp [dialFailUpdate, hs], by simpa [dialFailUpdate] using h2, by simp [dialFailUpdate, hs]⟩
  | dialOk conn hconn =>
    have hs : s.serving = false := h3 hconn
    exact ⟨by simp [dialOkUpdate, hs], by simpa [dialOkUpdate] using h2, by simp [dialOkUpdate, hs]⟩
  | cancel => exact ⟨by simpa [cancelRecord] using h1, by simp [cancelRecord], by simpa [cancelRecord] using h3⟩
  | finalize hcanc => exact ⟨by simp [finalizeConn], by simp [finalizeConn, hcanc], by simp [finalizeConn]⟩

theorem reachable_inv (tablet : Tablet) (s : TabletHealth) (h : ReachableRecord tablet s) :
    RecordInv s := by
  induction h with
  | refl => exact ⟨by simp [newTabletHealth], by simp [newTabletHealth], by simp [newTabletHealth]⟩
  | tail _ hstep ih => exact monitorStep_inv hstep ih

/-- C4: for every record state reachable from its creation by `AddTablet`
through the monitor's mutations (`processResponse`, the freshness-timeout
handler, stream dial/error handling, cancellation, `finalizeConn`),
`Serving = true` implies `Up = true` and `LastError = nil`. -/
theorem serving_implies_up_and_no_error (tablet : Tablet) (s : TabletHealth)
    (hreach : ReachableRecord tablet s) (hserving : s.serving = true) :
    s.up = true ∧ s.lastError = none :=
  (reachable_inv tablet s hreach).1 hserving

/-- A well-formed healthy sample. -/
def shrHealthy : StreamHealthResponse :=
  { target := some { keyspace := "ks", shard := "0", tabletType := .replica }
    serving := true
    tabletExternallyReparentedTimestamp := 0
    realtimeStats := some { healthError := "" }
    tabletAlias := none }

/-- The record of `tabletA` after a successful dial and one healthy sample. -/
def servingRecord : TabletHealth :=
  (processResponse (dialOkUpdate (newTabletHealth tabletA) 3) shrHealthy).1

/-- C4 witness: the concrete record reached by dialing and processing one
healthy sample is serving, and indeed up with no error. -/
theorem serving_implies_up_and_no_error_witness :
    servingRecord.up = true ∧ servingRecord.lastError = none :=
  serving_implies_up_and_no_error tabletA servingRecord
    (Relation.ReflTransGen.tail
      (Relation.ReflTransGen.single (MonitorStep.dialOk (newTabletHealth tabletA) 3 rfl))
      (MonitorStep.response (dialOkUpdate (newTabletHealth tabletA) 3) shrHealthy (by decide)))
    (by decide)

/-! ## Shuffle machinery: positional predicates and swap lemmas -/

/-- Whether the element at position `i` satisfies `p` (`false` past the
end). -/
def predAt (p : TabletHealth → Bool) (ts : List TabletHealth) (i : Nat) : Bool :=
  match ts[i]? with
  | some th => p th
  | none => false

theorem predAt_congr (p : TabletHealth → Bool) {ts₁ ts₂ : List TabletHealth} {i j : Nat}
    (h : ts₁[i]? = ts₂[j]?) : predAt p ts₁ i = predAt p ts₂ j := by
  unfold predAt
  rw [h]

theorem predAt_false_of_ge (p : TabletHealth → Bool) (ts : List TabletHealth) (i : Nat)
    (h : ts.length ≤ i) : predAt p ts i = false := by
  unfold predAt
  rw [List.getElem?_eq_none h]

theorem swapL_length {α : Type} (l : List α) (i j : Nat) : (swapL l i j).length = l.length := by
  unfold swapL
  split
  · simp
  · rfl

theorem swapL_oob {α : Type} (l : List α) (i j : Nat) (h : ¬(i < l.length ∧ j < l.length)) :
    swapL l i j = l := by
  unfold swapL
  split
  · rename_i a b ha hb
    exact absurd ⟨(List.getElem?_eq_some.mp ha).1, (List.getElem?_eq_some.mp hb).1⟩ h
  · rfl

theorem get_cons_set_perm {α : Type} :
    ∀ (t : List α) (s : Nat) (hs : s < t.length) (a : α),
      (t.get ⟨s, hs⟩ :: t.set s a).Perm (a :: t) := by
  intro t
  induction t with
  | nil => intro s hs a; simp at hs
  | cons b t' ih =>
    intro s hs a
    cases s with
    | zero => exact List.Perm.swap a b t'
    | succ s' =>
      have hs' : s' < t'.length := by simpa using hs
      exact (List.Perm.swap b (t'.get ⟨s', hs'⟩) (t'.set s' a)).trans
        ((List.Perm.cons b (ih s' hs' a)).trans (List.Perm.swap a b t'))

theorem set_set_swap_perm {α : Type} :
    ∀ (l : List α) (i j : Nat) (hi : i < l.length) (hj : j < l.length),
      ((l.set i (l.get ⟨j, hj⟩)).set j (l.get ⟨i, hi⟩)).Perm l := by
  intro l
  induction l with
  | nil => intro i j hi _; simp at hi
  | cons x t ih =>
    intro i j hi hj
    cases i with
    | zero =>
      cases j with
      | zero => simp
      | succ j' =>
        have hj' : j' < t.length := by simpa using hj
        exact get_cons_set_perm t j' hj' x
    | succ i' =>
      have hi' : i' < t.length := by simpa using hi
      cases j with
      | zero => exact get_cons_set_perm t i' hi' x
      | succ j' =>
        have hj' : j' < t.length := by simpa using hj
        exact List.Perm.cons x (ih i' j' hi' hj')

theorem swapL_eq_of_lt {α : Type} (l : List α) (i j : Nat) (hi : i < l.length) (hj : j < l.length) :
    swapL l i j = (l.set i l[j]).set j l[i] := by
  simp only [swapL, List.getElem?_eq_getElem hi, List.getElem?_eq_getElem hj]

theorem swapL_perm {α : Type} (l : List α) (i j : Nat) : (swapL l i j).Perm l := by
  by_cases hrange : i < l.length ∧ j < l.length
  · rw [swapL_eq_of_lt l i j hrange.1 hrange.2]
    exact set_set_swap_perm l i j hrange.1 hrange.2
  · rw [swapL_oob l i j hrange]

theorem getElem?_swapL_other {α : Type} (l : List α) (i j k : Nat) (hk1 : k ≠ i) (hk2 : k ≠ j) :
    (swapL l i j)[k]? = l[k]? := by
  by_cases hrange : i < l.length ∧ j < l.length
  · rw [swapL_eq_of_lt l i j hrange.1 hrange.2,
      List.getElem?_set_ne (fun h => hk2 h.symm), List.getElem?_set_ne (fun h => hk1 h.symm)]
  · rw [swapL_oob l i j hrange]

theorem getElem?_swapL_snd {α : Type} (l : List α) (i j : Nat) (hi : i < l.length) (hj : j < l.length) :
    (swapL l i j)[j]? = l[i]? := by
  rw [swapL_eq_of_lt l i j hi hj, List.getElem?_set_self (by simpa using hj),
    List.getElem?_eq_getElem hi]

theorem getElem?_swapL_fst {α : Type} (l : List α) (i j : Nat) (hi : i < l.length) (hj : j < l.length) :
    (swapL l i j)[i]? = l[j]? := by
  by_cases hij : i = j
  · subst hij
    exact getElem?_swapL_snd l i i hi hi
  · rw [swapL_eq_of_lt l i j hi hj, List.getElem?_set_ne (fun h => hij h.symm),
      List.getElem?_set_self hi, List.getElem?_eq_getElem hj]

/-- A swap of two positions inside `[lo, hi]` preserves a predicate that
holds everywhere in that zone. -/
theorem predAt_swapL_zone (p : TabletHealth → Bool) (l : List TabletHealth) (i j lo hi : Nat)
    (hilo : lo ≤ i) (hihi : i ≤ hi) (hjlo : lo ≤ j) (hjhi : j ≤ hi)
    (hall : ∀ k, lo ≤ k → k ≤ hi → k < l.length → predAt p l k = true) :
    ∀ k, lo ≤ k → k ≤ hi → k < l.length → predAt p (swapL l i j) k = true := by
  intro k hk1 hk2 hk3
  by_cases hrange : i < l.length ∧ j < l.length
  · by_cases hkj : k = j
    · rw [hkj, predAt_congr p (getElem?_swapL_snd l i j hrange.1 hrange.2)]
      exact hall i hilo hihi hrange.1
    · by_cases hki : k = i
      · rw [hki, predAt_congr p (getElem?_swapL_fst l i j hrange.1 hrange.2)]
        exact hall j hjlo hjhi hrange.2
      · rw [predAt_congr p (getElem?_swapL_other l i j k hki hkj)]
        exact hall k hk1 hk2 hk3
  · rw [swapL_oob l i j hrange]
    exact hall k hk1 hk2 hk3

/-! ## Fisher-Yates pass lemmas -/

theorem fyLoop_perm (lo : Nat) : ∀ (i : Nat) (ts : List TabletHealth) (rands : List Nat),
    ((fyLoop lo i ts rands).1).Perm ts := by
  intro i
  induction i using Nat.strong_induction_on with
  | _ i ih =>
    intro ts rands
    rw [fyLoop_eq]
    split
    · rename_i h
      exact (ih (i - 1) (by omega) _ _).trans (swapL_perm ts i _)
    · exact List.Perm.refl ts

theorem fyLoop_length (lo i : Nat) (ts : List TabletHealth) (rands : List Nat) :
    ((fyLoop lo i ts rands).1).length = ts.length :=
  (fyLoop_perm lo i ts rands).length_eq

theorem fyLoop_outside (lo : Nat) : ∀ (i : Nat) (ts : List TabletHealth) (rands : List Nat) (k : Nat),
    (k < lo ∨ i < k) → ((fyLoop lo i ts rands).1)[k]? = ts[k]? := by
  intro i
  induction i using Nat.strong_induction_on with
  | _ i ih =>
    intro ts rands k hk
    rw [fyLoop_eq]
    split
    · rename_i h
      have hsw : rands.headD 0 % (i - lo + 1) + lo ≤ i := by
        have := Nat.mod_lt (rands.headD 0) (y := i - lo + 1) (by omega)
        omega
      have hk1 : k ≠ i := by omega
      have hk2 : k ≠ rands.headD 0 % (i - lo + 1) + lo := by
        rcases hk with hk | hk
        · omega
        · omega
      rw [ih (i - 1) (by omega) _ _ k (by omega)]
      exact getElem?_swapL_other ts i _ k hk1 hk2
    · rfl

theorem fyLoop_zone (p : TabletHealth → Bool) (lo : Nat) :
    ∀ (i : Nat) (ts : List TabletHealth) (rands : List Nat),
      (∀ k, lo ≤ k → k ≤ i → k < ts.length → predAt p ts k = true) →
      ∀ k, lo ≤ k → k ≤ i → k < ts.length → predAt p ((fyLoop lo i ts rands).1) k = true := by
  intro i
  induction i using Nat.strong_induction_on with
  | _ i ih =>
    intro ts rands hall k hk1 hk2 hk3
    rw [fyLoop_eq]
    split
    · rename_i h
      have hsw : rands.headD 0 % (i - lo + 1) + lo ≤ i := by
        have := Nat.mod_lt (rands.headD 0) (y := i - lo + 1) (by omega)
        omega
      have hall' : ∀ k, lo ≤ k → k ≤ i → k < ts.length →
          predAt p (swapL ts i (rands.headD 0 % (i - lo + 1) + lo)) k = true := by
        by_cases hi : i < ts.length
        · exact predAt_swapL_zone p ts i _ lo i (by omega) (le_refl i) (by omega) hsw hall
        · intro k hka hkb hkc
          rw [swapL_oob ts i _ (fun hr => hi hr.1)]
          exact hall k hka hkb hkc
      have hlen : (swapL ts i (rands.headD 0 % (i - lo + 1) + lo)).length = ts.length :=
        swapL_length ts i _
      by_cases hki : k = i
      · rw [hki, predAt_congr p (fyLoop_outside lo (i - 1) _ _ i (by omega))]
        exact hall' i (by omega) (le_refl i) (by omega)
      · refine ih (i - 1) (by omega) _ _ (fun k' hk1' hk2' hk3' => ?_) k hk1 (by omega) (by omega)
        exact hall' k' hk1' (by omega) (by omega)
    · exact hall k hk1 hk2 hk3

/-! ## `nextTablet` characterization -/

/-- Whether position `i` holds a tablet whose cell-equality with `cell`
matches `sameCell` (the scan condition of `nextTablet`). -/
def matchAt (cell : String) (flag : Bool) (ts : List TabletHealth) (i : Nat) : Bool :=
  predAt (fun th => (th.tablet.Alias.cell == cell) == flag) ts i

theorem matchAt_lt (cell : String) (flag : Bool) (ts : List TabletHealth) (i : Nat)
    (h : i < ts.length) :
    matchAt cell flag ts i = (((ts.get ⟨i, h⟩).tablet.Alias.cell == cell) == flag) := by
  unfold matchAt predAt
  rw [List.getElem?_eq_getElem h]
  rfl

theorem matchAt_negate (cell : String) (flag : Bool) (ts : List TabletHealth) (i : Nat)
    (h : i < ts.length) : matchAt cell (!flag) ts i = !(matchAt cell flag ts i) := by
  rw [matchAt_lt cell flag ts i h, matchAt_lt cell (!flag) ts i h]
  cases (ts.get ⟨i, h⟩).tablet.Alias.cell == cell <;> cases flag <;> rfl

theorem nextTablet_eq_some (cell : String) (ts : List TabletHealth) (flag : Bool) :
    ∀ (off k : Nat), nextTablet cell ts off flag = some k →
      off ≤ k ∧ k < ts.length ∧ matchAt cell flag ts k = true ∧
        ∀ i, off ≤ i → i < k → matchAt cell flag ts i = false := by
  suffices hgen : ∀ (n off k : Nat), ts.length - off ≤ n → nextTablet cell ts off flag = some k →
      off ≤ k ∧ k < ts.length ∧ matchAt cell flag ts k = true ∧
        ∀ i, off ≤ i → i < k → matchAt cell flag ts i = false by
    exact fun off k h => hgen ts.length off k (by omega) h
  intro n
  induction n with
  | zero =>
    intro off k hle h
    rw [nextTablet_eq, dif_neg (by omega)] at h
    cases h
  | succ n ihn =>
    intro off k hle h
    rw [nextTablet_eq] at h
    by_cases hoff : off < ts.length
    · rw [dif_pos hoff] at h
      by_cases htest : (((ts.get ⟨off, hoff⟩).tablet.Alias.cell == cell) == flag) = true
      · rw [if_pos htest] at h
        injection h with h
        obtain rfl : k = off := h.symm
        exact ⟨le_refl k, hoff, by rw [matchAt_lt cell flag ts k hoff]; exact htest,
          fun i hi1 hi2 => by omega⟩
      · rw [if_neg htest] at h
        obtain ⟨h1, h2, h3, h4⟩ := ihn (off + 1) k (by omega) h
        refine ⟨by omega, h2, h3, fun i hi1 hi2 => ?_⟩
        by_cases hio : i = off
        · rw [hio, matchAt_lt cell flag ts off hoff]
          exact Bool.not_eq_true _ ▸ htest
        · exact h4 i (by omega) hi2
    · rw [dif_neg hoff] at h
      cases h

theorem nextTablet_eq_none (cell : String) (ts : List TabletHealth) (flag : Bool) :
    ∀ (off : Nat), nextTablet cell ts off flag = none →
      ∀ i, off ≤ i → i < ts.length → matchAt cell flag ts i = false := by
  suffices hgen : ∀ (n off : Nat), ts.length - off ≤ n → nextTablet cell ts off flag = none →
      ∀ i, off ≤ i → i < ts.length → matchAt cell flag ts i = false by
    exact fun off h => hgen ts.length off (by omega) h
  intro n
  induction n with
  | zero =>
    intro off hle _ i hi1 hi2
    omega
  | succ n ihn =>
    intro off hle h i hi1 hi2
    rw [nextTablet_eq] at h
    by_cases hoff : off < ts.length
    · rw [dif_pos hoff] at h
      by_cases htest : (((ts.get ⟨off, hoff⟩).tablet.Alias.cell == cell) == flag) = true
      · rw [if_pos htest] at h
        cases h
      · rw [if_neg htest] at h
        by_cases hio : i = off
        · rw [hio, matchAt_lt cell flag ts off hoff]
          exact Bool.not_eq_true _ ▸ htest
        · exact ihn (off + 1) (by omega) h i (by omega) hi2
    · omega

theorem matchAt_true_of_not_false (cell : String) (ts : List TabletHealth) (i : Nat)
    (h : i < ts.length) (hm : matchAt cell false ts i = false) : matchAt cell true ts i = true := by
  rw [matchAt_lt cell false ts i h] at hm
  rw [matchAt_lt cell true ts i h]
  cases hb : (ts.get ⟨i, h⟩).tablet.Alias.cell == cell
  · rw [hb] at hm
    cases hm
  · rfl

theorem matchAt_false_of_not_true (cell : String) (ts : List TabletHealth) (i : Nat)
    (h : i < ts.length) (hm : matchAt cell true ts i = false) : matchAt cell false ts i = true := by
  rw [matchAt_lt cell true ts i h] at hm
  rw [matchAt_lt cell false ts i h]
  cases hb : (ts.get ⟨i, h⟩).tablet.Alias.cell == cell
  · rfl
  · rw [hb] at hm
    cases hm

theorem matchAt_not_both (cell : String) (ts : List TabletHealth) (i : Nat)
    (h1 : matchAt cell true ts i = true) (h2 : matchAt cell false ts i = true) : False := by
  have hlt : i < ts.length := by
    by_contra hge
    unfold matchAt at h1
    rw [predAt_false_of_ge _ ts i (by omega)] at h1
    cases h1
  rw [matchAt_lt cell true ts i hlt] at h1
  rw [matchAt_lt cell false ts i hlt] at h2
  cases hb : (ts.get ⟨i, hlt⟩).tablet.Alias.cell == cell
  · rw [hb] at h1
    cases h1
  · rw [hb] at h2
    cases h2

/-! ## Partition-loop invariant -/

/-- The two-cursor partition loop of `shuffleTablets` permutes the list
and, on exit, every position below the returned boundary holds a same-cell
tablet, while the positions at or above it hold only different-cell
tablets — unless the whole list is same-cell (the loop's first iteration
can break with the boundary still at zero in that case). -/
theorem shufflePartition_spec (cell : String) :
    ∀ (fuel sameCell diffCell : Nat) (ts : List TabletHealth),
      diffCell ≤ sameCell → sameCell ≤ ts.length → ts.length < fuel + sameCell →
      (∀ i, i < diffCell → matchAt cell true ts i = true) →
      (∀ i, diffCell ≤ i → i < sameCell → matchAt cell false ts i = true) →
      ((shufflePartition cell ts sameCell diffCell fuel).1.Perm ts ∧
       (∀ i, i < (shufflePartition cell ts sameCell diffCell fuel).2 →
         matchAt cell true (shufflePartition cell ts sameCell diffCell fuel).1 i = true) ∧
       ((∀ i, (shufflePartition cell ts sameCell diffCell fuel).2 ≤ i → i < ts.length →
           matchAt cell false (shufflePartition cell ts sameCell diffCell fuel).1 i = true) ∨
        (∀ i, i < ts.length →
           matchAt cell true (shufflePartition cell ts sameCell diffCell fuel).1 i = true))) := by
  intro fuel
  induction fuel with
  | zero =>
    intro s d ts hds hslen hfuel _ _
    omega
  | succ fuel ih =>
    intro s d ts hds hslen hfuel hinv1 hinv2
    cases hs : nextTablet cell ts s true with
    | none =>
      have hscan := nextTablet_eq_none cell ts true s hs
      have hres : shufflePartition cell ts s d (fuel + 1) = (ts, d) := by
        unfold shufflePartition
        rw [hs]
      rw [hres]
      refine ⟨List.Perm.refl ts, hinv1, Or.inl fun i hi1 hi2 => ?_⟩
      by_cases his : i < s
      · exact hinv2 i hi1 his
      · exact matchAt_false_of_not_true cell ts i hi2 (hscan i (by omega) hi2)
    | some s1 =>
      obtain ⟨hs1, hs2, hs3, hs4⟩ := nextTablet_eq_some cell ts true s s1 hs
      cases hd : nextTablet cell ts d false with
      | none =>
        have hdscan := nextTablet_eq_none cell ts false d hd
        have hres : shufflePartition cell ts s d (fuel + 1) = (ts, d) := by
          unfold shufflePartition
          rw [hs, hd]
        rw [hres]
        refine ⟨List.Perm.refl ts, hinv1, Or.inr fun i hi => ?_⟩
        by_cases hid : i < d
        · exact hinv1 i hid
        · exact matchAt_true_of_not_false cell ts i hi (hdscan i (by omega) hi)
      | some d1 =>
        obtain ⟨hd1, hd2, hd3, hd4⟩ := nextTablet_eq_some cell ts false d d1 hd
        by_cases hlt : s1 < d1
        · have hres : shufflePartition cell ts s d (fuel + 1) =
              shufflePartition cell ts (d1 + 1) d1 fuel := by
            conv_lhs => unfold shufflePartition
            simp [hs, hd, hlt]
          rw [hres]
          refine ih (d1 + 1) d1 ts (by omega) (by omega) (by omega) ?_ ?_
          · intro i hi
            by_cases hid : i < d
            · exact hinv1 i hid
            · exact matchAt_true_of_not_false cell ts i (by omega) (hd4 i (by omega) hi)
          · intro i hi1 hi2
            have : i = d1 := by omega
            rw [this]
            exact hd3
        · have hne : s1 ≠ d1 := by
            intro heq
            exact matchAt_not_both cell ts s1 hs3 (heq ▸ hd3)
          have hgt : d1 < s1 := by omega
          have hres : shufflePartition cell ts s d (fuel + 1) =
              shufflePartition cell (swapL ts s1 d1) (s1 + 1) (d1 + 1) fuel := by
            conv_lhs => unfold shufflePartition
            simp [hs, hd, hlt]
          rw [hres]
          have hlen : (swapL ts s1 d1).length = ts.length := swapL_length ts s1 d1
          have hcsnd : (swapL ts s1 d1)[d1]? = ts[s1]? := getElem?_swapL_snd ts s1 d1 hs2 hd2
          have hcfst : (swapL ts s1 d1)[s1]? = ts[d1]? := getElem?_swapL_fst ts s1 d1 hs2 hd2
          have hinv1' : ∀ i, i < d1 + 1 → matchAt cell true (swapL ts s1 d1) i = true := by
            intro i hi
            by_cases hid1 : i = d1
            · rw [hid1]
              unfold matchAt
              rw [predAt_congr _ hcsnd]
              exact hs3
            · unfold matchAt
              rw [predAt_congr _ (getElem?_swapL_other ts s1 d1 i (by omega) (by omega))]
              by_cases hid : i < d
              · exact hinv1 i hid
              · exact matchAt_true_of_not_false cell ts i (by omega) (hd4 i (by omega) (by omega))
          have hinv2' : ∀ i, d1 + 1 ≤ i → i < s1 + 1 → matchAt cell false (swapL ts s1 d1) i = true := by
            intro i hi1 hi2
            by_cases his1 : i = s1
            · rw [his1]
              unfold matchAt
              rw [predAt_congr _ hcfst]
              exact hd3
            · unfold matchAt
              rw [predAt_congr _ (getElem?_swapL_other ts s1 d1 i (by omega) (by omega))]
              by_cases his : i < s
              · exact hinv2 i (by omega) his
              · exact matchAt_false_of_not_true cell ts i (by omega) (hs4 i (by omega) (by omega))
          obtain ⟨ihp, ihb, ihc⟩ := ih (s1 + 1) (d1 + 1) (swapL ts s1 d1)
            (by omega) (by omega) (by omega) hinv1' hinv2'
          refine ⟨ihp.trans (swapL_perm ts s1 d1), ihb, ?_⟩
          rw [hlen] at ihc
          exact ihc

theorem fyLoop_stop (lo i : Nat) (ts : List TabletHealth) (rands : List Nat) (h : ¬lo < i) :
    fyLoop lo i ts rands = (ts, rands) := by
  rw [fyLoop_eq, if_neg h]

theorem matchAt_true_eq (cell : String) (ts : List TabletHealth) (i : Nat) :
    matchAt cell true ts i = predAt (fun th => th.tablet.Alias.cell == cell) ts i := by
  unfold matchAt predAt
  cases h : ts[i]? with
  | none => rfl
  | some th => simp

/-- Ordering property: every position satisfying `p` precedes every
position violating it. -/
def zonePrecedes (p : TabletHealth → Bool) (l : List TabletHealth) : Prop :=
  ∀ i j : Nat, i < j → predAt p l j = true → predAt p l i = true

theorem shuffleTablets_perm (cell : String) (tablets : List TabletHealth) (rands : List Nat) :
    (shuffleTablets cell tablets rands).Perm tablets := by
  have hp := (shufflePartition_spec cell (tablets.length + 1) 0 0 tablets
    (le_refl 0) (Nat.zero_le _) (by omega)
    (fun i hi => absurd hi (Nat.not_lt_zero i))
    (fun i _ hi2 => absurd hi2 (Nat.not_lt_zero i))).1
  exact (fyLoop_perm _ _ _ _).trans ((fyLoop_perm _ _ _ _).trans hp)

/-- The two Fisher-Yates passes preserve the zone structure established by
the partition loop, so the full shuffle keeps same-cell tablets in front. -/
theorem fy_passes_zones (cell : String) (len b : Nat) (ts1 : List TabletHealth) (rands : List Nat)
    (hlen : ts1.length = len)
    (hz1 : ∀ i, i < b → matchAt cell true ts1 i = true)
    (hz2 : (∀ i, b ≤ i → i < len → matchAt cell false ts1 i = true) ∨
           (∀ i, i < len → matchAt cell true ts1 i = true)) :
    ∀ i j : Nat, i < j →
      matchAt cell true
        (fyLoop b (len - 1) (fyLoop 0 (b - 1) ts1 rands).1 (fyLoop 0 (b - 1) ts1 rands).2).1 j = true →
      matchAt cell true
        (fyLoop b (len - 1) (fyLoop 0 (b - 1) ts1 rands).1 (fyLoop 0 (b - 1) ts1 rands).2).1 i = true := by
  have hble : b ≤ len := by
    by_contra hgt
    have h1 := hz1 len (by omega)
    unfold matchAt at h1
    rw [predAt_false_of_ge _ ts1 len (by omega)] at h1
    cases h1
  have hf1len : (fyLoop 0 (b - 1) ts1 rands).1.length = len := by
    rw [fyLoop_length, hlen]
  have hreslen :
      (fyLoop b (len - 1) (fyLoop 0 (b - 1) ts1 rands).1 (fyLoop 0 (b - 1) ts1 rands).2).1.length = len := by
    rw [fyLoop_length, hf1len]
  have hup : ∀ k, b ≤ k → (fyLoop 0 (b - 1) ts1 rands).1[k]? = ts1[k]? := by
    intro k hk
    by_cases hb : b = 0
    · rw [hb]
      rw [fyLoop_stop 0 (0 - 1) ts1 rands (by omega)]
    · exact fyLoop_outside 0 (b - 1) ts1 rands k (Or.inr (by omega))
  have hA1 : ∀ k, k < b → k < len → matchAt cell true (fyLoop 0 (b - 1) ts1 rands).1 k = true := by
    intro k hkb hklen
    have hb1 : 1 ≤ b := by omega
    exact fyLoop_zone _ 0 (b - 1) ts1 rands
      (fun k' _ hk2 _ => hz1 k' (by omega)) k (Nat.zero_le k) (by omega) (by omega)
  cases hz2 with
  | inl ldiff =>
    have hB1 : ∀ k, b ≤ k → k < len →
        matchAt cell false
          (fyLoop b (len - 1) (fyLoop 0 (b - 1) ts1 rands).1 (fyLoop 0 (b - 1) ts1 rands).2).1 k = true := by
      intro k hk1 hk2
      refine fyLoop_zone _ b (len - 1) _ _ (fun k' hk1' hk2' hk3' => ?_) k hk1 (by omega) (by omega)
      rw [predAt_congr _ (hup k' hk1')]
      exact ldiff k' hk1' (by omega)
    have hB2 : ∀ k, k < b →
        matchAt cell true
          (fyLoop b (len - 1) (fyLoop 0 (b - 1) ts1 rands).1 (fyLoop 0 (b - 1) ts1 rands).2).1 k = true := by
      intro k hk
      unfold matchAt
      rw [predAt_congr _ (fyLoop_outside b (len - 1) _ _ k (Or.inl hk))]
      exact hA1 k hk (by omega)
    intro i j hij hpj
    have hjlen : j < len := by
      by_contra hge
      unfold matchAt at hpj
      rw [predAt_false_of_ge _ _ j (by omega)] at hpj
      cases hpj
    have hjb : j < b := by
      by_contra hnb
      exact matchAt_not_both cell _ j hpj (hB1 j (by omega) hjlen)
    exact hB2 i (by omega)
  | inr hall =>
    have hC1 : ∀ k, k < len → matchAt cell true (fyLoop 0 (b - 1) ts1 rands).1 k = true := by
      intro k hk
      by_cases hkb : k < b
      · exact hA1 k hkb hk
      · unfold matchAt
        rw [predAt_congr _ (hup k (by omega))]
        exact hall k hk
    have hD1 : ∀ k, k < len →
        matchAt cell true
          (fyLoop b (len - 1) (fyLoop 0 (b - 1) ts1 rands).1 (fyLoop 0 (b - 1) ts1 rands).2).1 k = true := by
      intro k hk
      by_cases hkb : k < b
      · unfold matchAt
        rw [predAt_congr _ (fyLoop_outside b (len - 1) _ _ k (Or.inl hkb))]
        exact hC1 k hk
      · exact fyLoop_zone _ b (len - 1) _ _
          (fun k' hk1' hk2' hk3' => hC1 k' (by omega)) k (by omega) (by omega) (by omega)
    intro i j hij hpj
    have hjlen : j < len := by
      by_contra hge
      unfold matchAt at hpj
      rw [predAt_false_of_ge _ _ j (by omega)] at hpj
      cases hpj
    exact hD1 i (by omega)

theorem shuffleTablets_zones (cell : String) (tablets : List TabletHealth) (rands : List Nat) :
    zonePrecedes (fun th => th.tablet.Alias.cell == cell) (shuffleTablets cell tablets rands) := by
  obtain ⟨hperm, hz1, hz2⟩ := shufflePartition_spec cell (tablets.length + 1) 0 0 tablets
    (le_refl 0) (Nat.zero_le _) (by omega)
    (fun i hi => absurd hi (Nat.not_lt_zero i))
    (fun i _ hi2 => absurd hi2 (Nat.not_lt_zero i))
  have hrw : shuffleTablets cell tablets rands =
      (fyLoop (shufflePartition cell tablets 0 0 (tablets.length + 1)).2 (tablets.length - 1)
        (fyLoop 0 ((shufflePartition cell tablets 0 0 (tablets.length + 1)).2 - 1)
          (shufflePartition cell tablets 0 0 (tablets.length + 1)).1 rands).1
        (fyLoop 0 ((shufflePartition cell tablets 0 0 (tablets.length + 1)).2 - 1)
          (shufflePartition cell tablets 0 0 (tablets.length + 1)).1 rands).2).1 := rfl
  intro i j hij hpj
  rw [hrw, ← matchAt_true_eq] at hpj ⊢
  exact fy_passes_zones cell tablets.length
    (shufflePartition cell tablets 0 0 (tablets.length + 1)).2
    (shufflePartition cell tablets 0 0 (tablets.length + 1)).1 rands
    hperm.length_eq hz1 hz2 i j hij hpj

/-! ## C8 -/

/-- C8 (amended): `shuffleTablets` permutes its input in place (the
multiset of records is preserved) such that afterwards every tablet whose
alias-cell is *equal* to `localCell` precedes every tablet from a
different cell; within each of the two zones the order is produced by the
in-place Fisher-Yates pass driven by the random source.  The code compares
cells by plain string equality, not by the topology's cell-alias lookup
(see the counterexample). -/
theorem shuffleTablets_locality (localCell : String) (tablets : List TabletHealth) (rands : List Nat) :
    (shuffleTablets localCell tablets rands).Perm tablets ∧
    zonePrecedes (fun th => th.tablet.Alias.cell == localCell) (shuffleTablets localCell tablets rands) :=
  ⟨shuffleTablets_perm localCell tablets rands, shuffleTablets_zones localCell tablets rands⟩

/-- Modelled from the spec: a cell-alias assignment (as cached by
`getAliasByCell`) under which `ca` and `ca2` share one alias while `cb`
has another. -/
def aliasByCellEx (cell : String) : String :=
  if cell = "cb" then "aliasB" else "aliasA"

/-- A replica in cell `ca2` (alias-equivalent to `ca` under
`aliasByCellEx`, but a different cell string). -/
def thSameAliasCell : TabletHealth :=
  newTabletHealth { Alias := { cell := "ca2", uid := 2 }, keyspace := "ks", shard := "0", type := .replica }

/-- A replica in cell `cb` (not alias-equivalent to `ca`). -/
def thDiffAliasCell : TabletHealth :=
  newTabletHealth { Alias := { cell := "cb", uid := 3 }, keyspace := "ks", shard := "0", type := .replica }

/-- C8 counterexample: the claim's zone condition computes cell
equivalence through the cell-alias lookup.  `shuffleTablets` compares raw
cell strings, so with `localCell = ca` both tablets land in the
"different" zone and the random pass can leave the non-equivalent tablet
in front of the alias-equivalent one. -/
theorem shuffleTablets_alias_equiv_counterexample :
    shuffleTablets "ca" [thDiffAliasCell, thSameAliasCell] [1] = [thDiffAliasCell, thSameAliasCell] ∧
    aliasByCellEx thSameAliasCell.tablet.Alias.cell = aliasByCellEx "ca" ∧
    aliasByCellEx thDiffAliasCell.tablet.Alias.cell ≠ aliasByCellEx "ca" ∧
    ¬ zonePrecedes (fun th => aliasByCellEx th.tablet.Alias.cell == aliasByCellEx "ca")
        (shuffleTablets "ca" [thDiffAliasCell, thSameAliasCell] [1]) := by
  refine ⟨by decide, by decide, by decide, ?_⟩
  intro h
  exact absurd (h 0 1 (by omega) (by decide)) (by decide)

/-! ## C6 -/

theorem selectLoop_error_msg (hc : HealthCheckImpl) :
    ∀ (l : List TabletHealth) (invalid : List String) (e : VtError),
      (selectLoop hc l invalid).1 = .error e → e = unavailable "no available connection" := by
  intro l
  induction l with
  | nil =>
    intro invalid e h
    simp only [selectLoop] at h
    exact (Except.error.inj h).symm
  | cons t rest ih =>
    intro invalid e h
    unfold selectLoop at h
    by_cases hin : keyFromTablet t.tablet ∈ invalid
    · rw [if_pos hin] at h
      exact ih invalid e h
    · rw [if_neg hin] at h
      cases hconn : getConnection hc (keyFromTablet t.tablet) with
      | none =>
        rw [hconn] at h
        exact ih _ e h
      | some c =>
        rw [hconn] at h
        cases h

theorem selectLoop_error_of_all (hc : HealthCheckImpl) :
    ∀ (l : List TabletHealth) (invalid : List String),
      (∀ t ∈ l, keyFromTablet t.tablet ∈ invalid ∨ getConnection hc (keyFromTablet t.tablet) = none) →
      (selectLoop hc l invalid).1 = .error (unavailable "no available connection") := by
  intro l
  induction l with
  | nil => intro invalid _; rfl
  | cons t rest ih =>
    intro invalid hall
    unfold selectLoop
    by_cases hin : keyFromTablet t.tablet ∈ invalid
    · rw [if_pos hin]
      exact ih invalid (fun t' ht' => hall t' (List.mem_cons_of_mem t ht'))
    · rw [if_neg hin]
      have hconn : getConnection hc (keyFromTablet t.tablet) = none := by
        rcases hall t (List.mem_cons_self t rest) with h | h
        · exact absurd h hin
        · exact h
      rw [hconn]
      refine ih _ (fun t' ht' => ?_)
      rcases hall t' (List.mem_cons_of_mem t ht') with h | h
      · exact Or.inl (List.mem_cons_of_mem _ h)
      · exact Or.inr h

theorem selectLoop_all_of_error (hc : HealthCheckImpl) :
    ∀ (l : List TabletHealth) (invalid invalid0 : List String),
      (∀ k, k ∈ invalid → k ∈ invalid0 ∨ getConnection hc k = none) →
      (selectLoop hc l invalid).1 = .error (unavailable "no available connection") →
      ∀ t ∈ l, keyFromTablet t.tablet ∈ invalid0 ∨ getConnection hc (keyFromTablet t.tablet) = none := by
  intro l
  induction l with
  | nil => intro _ _ _ _ t ht; cases ht
  | cons t rest ih =>
    intro invalid invalid0 hinv h t' ht'
    unfold selectLoop at h
    by_cases hin : keyFromTablet t.tablet ∈ invalid
    · rw [if_pos hin] at h
      rcases List.mem_cons.mp ht' with heq | ht''
      · rw [heq]
        exact hinv _ hin
      · exact ih invalid invalid0 hinv h t' ht''
    · rw [if_neg hin] at h
      cases hconn : getConnection hc (keyFromTablet t.tablet) with
      | some c =>
        rw [hconn] at h
        cases h
      | none =>
        rw [hconn] at h
        rcases List.mem_cons.mp ht' with heq | ht''
        · rw [heq]
          exact Or.inr hconn
        · refine ih _ invalid0 (fun k hk => ?_) h t' ht''
          rcases List.mem_cons.mp hk with hk' | hk'
          · rw [hk']
            exact Or.inr hconn
          · exact hinv k hk'

/-- C6: `GetTabletAndConnection` returns `UNAVAILABLE("no valid tablet")`
exactly when the healthy-candidate list is empty, and
`UNAVAILABLE("no available connection")` exactly when candidates exist but
every one is exhausted — its key (which the code derives with
`keyFromTablet`) is already in `invalidTablets`, or the connection lookup
by that key yields nothing — and these are the only error results. -/
theorem getTabletAndConnection_errors (hc : HealthCheckImpl) (target : Target) (localCell : String)
    (invalidTablets : List String) (rands : List Nat) :
    ((GetTabletAndConnection hc target localCell invalidTablets rands).1 =
        .error (unavailable "no valid tablet") ↔ getHealthyTabletStats hc target = []) ∧
    ((GetTabletAndConnection hc target localCell invalidTablets rands).1 =
        .error (unavailable "no available connection") ↔
      (getHealthyTabletStats hc target ≠ [] ∧
        ∀ t ∈ getHealthyTabletStats hc target,
          keyFromTablet t.tablet ∈ invalidTablets ∨
            getConnection hc (keyFromTablet t.tablet) = none)) ∧
    (∀ e, (GetTabletAndConnection hc target localCell invalidTablets rands).1 = .error e →
      e = unavailable "no valid tablet" ∨ e = unavailable "no available connection") := by
  by_cases hemp : getHealthyTabletStats hc target = []
  · have hred : GetTabletAndConnection hc target localCell invalidTablets rands =
        (.error (unavailable "no valid tablet"), invalidTablets) := by
      unfold GetTabletAndConnection
      rw [if_pos (by rw [hemp]; rfl)]
    rw [hred]
    refine ⟨⟨fun _ => hemp, fun _ => rfl⟩, ⟨fun h => ?_, fun h => absurd hemp h.1⟩, fun e he => Or.inl (Except.error.inj he).symm⟩
    · exact absurd (VtError.mk.injEq _ _ _ _ ▸ congrArg id (Except.error.inj h)) (by simp [unavailable])
  · have hlen0 : ¬(getHealthyTabletStats hc target).length = 0 :=
      fun h => hemp (List.length_eq_zero.mp h)
    have hred : GetTabletAndConnection hc target localCell invalidTablets rands =
        selectLoop hc (shuffleTablets localCell (getHealthyTabletStats hc target) rands) invalidTablets := by
      unfold GetTabletAndConnection
      rw [if_neg hlen0]
    have hperm := shuffleTablets_perm localCell (getHealthyTabletStats hc target) rands
    rw [hred]
    refine ⟨⟨fun h => ?_, fun h => absurd h hemp⟩, ⟨fun h => ?_, fun h => ?_⟩, fun e he => Or.inr (selectLoop_error_msg hc _ _ e he)⟩
    · have := selectLoop_error_msg hc _ _ _ h
      exact absurd (congrArg VtError.msg this) (by simp [unavailable])
    · refine ⟨hemp, fun t ht => ?_⟩
      exact selectLoop_all_of_error hc _ invalidTablets invalidTablets (fun k hk => Or.inl hk) h
        t (hperm.mem_iff.mpr ht)
    · exact selectLoop_error_of_all hc _ invalidTablets (fun t ht => h.2 t (hperm.mem_iff.mp ht))

/-! ## C1 -/

/-- A record with a live connection, serving and healthy. -/
def thLiveConn : TabletHealth :=
  { tablet := tabletA
    target := { keyspace := "ks", shard := "0", tabletType := .replica }
    up := true, serving := true, lastError := none
    masterTermStartTime := 0, stats := some { healthError := "" }
    conn := some 7, canceled := false }

/-- The index holding only `thLiveConn`, under its target key. -/
def hcLive : HealthCheckImpl :=
  { retryDelay := 5, healthCheckTimeout := 60, cell := "cella"
    entries := some [("ks.0.2", [("cella-1", thLiveConn)])] }

/-- The REPLICA target matching `thLiveConn`. -/
def targetReplica : Target := { keyspace := "ks", shard := "0", tabletType := .replica }

/-- C1 (code bug): a single healthy candidate with a live connection and
an empty `invalidSet` does not get handed out.  The loop keys the lookup
by `keyFromTablet` (the target key `ks.0.2`), but `findTabletHealthByAlias`
compares that key against `TabletAliasString` renderings (`cella-1`), so
the connection is never found: the call errors with
`UNAVAILABLE("no available connection")` and pollutes `invalidSet` with
the target key. -/
theorem getTabletAndConnection_alias_key_mismatch :
    getHealthyTabletStats hcLive targetReplica = [thLiveConn] ∧
    thLiveConn.conn = some 7 ∧
    TabletAliasString thLiveConn.tablet.Alias = "cella-1" ∧
    keyFromTablet thLiveConn.tablet = "ks.0.2" ∧
    GetTabletAndConnection hcLive targetReplica "cella" [] [0] =
      (.error (unavailable "no available connection"), ["ks.0.2"]) := by
  exact ⟨rfl, rfl, rfl, rfl, rfl⟩

/-! ## C9 -/

theorem mergeSort_eq_of_perm {l1 l2 : List String} (h : l1.Perm l2) :
    l1.mergeSort = l2.mergeSort :=
  List.eq_of_perm_of_sorted
    ((List.mergeSort_perm l1 _).trans (h.trans (List.mergeSort_perm l2 _).symm))
    (List.sorted_mergeSort' l1) (List.sorted_mergeSort' l2)

/-- C9: the committed checksum input is computed over the *sorted* listed
aliases, each followed by its address key from the committed snapshot;
two ticks whose listings are permutations of each other and that commit
the same snapshot produce a byte-identical checksum input, hence the same
CRC-32 value (for the external `crc32.ChecksumIEEE`, or any function of
the bytes). -/
theorem topoChecksum_stable (tablets : List (String × String)) {listing1 listing2 : List String}
    (hperm : listing1.Perm listing2) :
    topoChecksumInput listing1 tablets = topoChecksumInput listing2 tablets ∧
    ∀ crc : String → Nat,
      crc (topoChecksumInput listing1 tablets) = crc (topoChecksumInput listing2 tablets) := by
  have h : listing1.mergeSort = listing2.mergeSort := mergeSort_eq_of_perm hperm
  unfold topoChecksumInput
  rw [h]
  exact ⟨rfl, fun _ => rfl⟩

/-- C9 witness: two listings of the same two aliases in opposite order,
with the same snapshot. -/
theorem topoChecksum_stable_witness :
    (["cellb-2", "cella-1"] : List String).Perm ["cella-1", "cellb-2"] ∧
    topoChecksumInput ["cellb-2", "cella-1"] [("cella-1", "h1:15"), ("cellb-2", "h2:15")] =
      topoChecksumInput ["cella-1", "cellb-2"] [("cella-1", "h1:15"), ("cellb-2", "h2:15")] :=
  ⟨List.Perm.swap "cella-1" "cellb-2" [],
   (topoChecksum_stable [("cella-1", "h1:15"), ("cellb-2", "h2:15")]
     (List.Perm.swap "cella-1" "cellb-2" [])).1⟩

end Discovery
